import Mathlib

/-!
Verification of the reduced-data discovery engine and metadata extractor of the
neutronote repository (`src/neutronote/services/data.py` and
`src/neutronote/services/metadata.py`), via a shallow embedding.

Modelling conventions:
* The filesystem is a finite tree of named entries rooted at `/SNS/SNAP`
  (`SNAP_DATA_ROOT` in the source).  Directory listings (`Path.iterdir`) are
  the child list in order; `Path.exists` is entry presence of either kind;
  `Path.glob` matches entry names.  Real directories never contain two entries
  of the same name; the model resolves a duplicated name to the first entry.
* An HDF5 container (`h5py.File`) is a flat map from key paths to datasets.
  A dataset read (`ds[()]`) yields either a 1-d array of items, a numeric
  scalar without `__len__`, or raises.  Byte-string items carry their UTF-8
  decoding, or `none` when decoding raises.  Naked byte-string scalar
  datasets (which CPython would index byte-wise) are outside the modelled
  container space: the source's own comment states NeXus stores values as
  1-element arrays.  A file whose container is `none` raises on open.
* Python `float` values are modelled as rationals; `str`/`int`/`float`/`None`
  runtime values as `PyVal`.  Exceptions are modelled with `Option`.
* Python's stable `list.sort`/`sorted` is modelled by a stable insertion
  sort; Python string comparison is code-point lexicographic, modelled by
  `strLe`.
* `int(...)` string parsing accepts surrounding whitespace, one sign, and
  digit groups separated by single underscores; Unicode digits beyond ASCII
  are not modelled (similarly `\d` in regexes is modelled as ASCII digits).
-/

/-- Code-point lexicographic order on character lists, as Python compares
`str` values (`True` when the first argument is ≤ the second). -/
def lexLe : List Char → List Char → Bool
  | [], _ => true
  | _ :: _, [] => false
  | a :: as, b :: bs =>
    if a.toNat < b.toNat then true
    else if b.toNat < a.toNat then false
    else lexLe as bs

/-- Python string `<=` (code-point lexicographic). -/
def strLe (a b : String) : Bool := lexLe a.data b.data

/-- Stable insertion of `x` into a list: `x` goes before the first element
`y` with `le x y`, so equal elements keep their original relative order,
like Python's stable sorts. -/
def insertBy (le : α → α → Bool) (x : α) : List α → List α
  | [] => [x]
  | y :: ys => if le x y then x :: y :: ys else y :: insertBy le x ys

/-- Stable sort, modelling Python's `sorted` / `list.sort`. -/
def sortBy (le : α → α → Bool) (l : List α) : List α := l.foldr (insertBy le) []

/-- List-prefix test used to model `str.startswith` and `fnmatch` literals. -/
def listIsPre : List Char → List Char → Bool
  | [], _ => true
  | _ :: _, [] => false
  | a :: as, b :: bs => a == b && listIsPre as bs

/-- Python `str.startswith`. -/
def strStartsWith (s p : String) : Bool := listIsPre p.data s.data

/-- Python `str.endswith`. -/
def strEndsWith (s p : String) : Bool := listIsPre p.data.reverse s.data.reverse

/-- Python `str.split(sep)` for a one-character separator, over char lists. -/
def splitOnChar (c : Char) : List Char → List (List Char)
  | [] => [[]]
  | a :: as =>
    match splitOnChar c as with
    | [] => [[a]]
    | g :: gs => if a == c then [] :: g :: gs else (a :: g) :: gs

/-- ASCII whitespace stripped by Python's `int()` / `float()` conversions. -/
def isPySpace (c : Char) : Bool :=
  c == ' ' || c == '\t' || c == '\n' || c == '\r' || c == '\x0b' || c == '\x0c'

/-- Digit sequence as accepted by Python `int()` after the optional sign:
nonempty, starts and ends with a digit, single underscores allowed only
between digits. -/
def pyDigitSeq : List Char → Bool
  | [] => false
  | [c] => c.isDigit
  | c :: r1 :: rest =>
    c.isDigit && (if r1 == '_' then pyDigitSeq rest else pyDigitSeq (r1 :: rest))

/-- Numeric value of a digit sequence, ignoring underscores. -/
def digitsVal (cs : List Char) : Nat :=
  (cs.filter (fun c => c != '_')).foldl (fun a c => a * 10 + (c.toNat - 48)) 0

/-- Python `int(s)` on a string: strip whitespace, optional sign, digits with
underscores.  Returns `none` when CPython would raise `ValueError`. -/
def pyIntParse (s : String) : Option Int :=
  let cs := ((s.data.dropWhile isPySpace).reverse.dropWhile isPySpace).reverse
  match cs with
  | '+' :: rest => if pyDigitSeq rest then some (digitsVal rest : Int) else none
  | '-' :: rest => if pyDigitSeq rest then some (-(digitsVal rest : Int)) else none
  | rest => if pyDigitSeq rest then some (digitsVal rest : Int) else none

/-- Decimal digits of a natural number (`fuel`-driven; any fuel above the
number gives the digits). -/
def natDigitsAux : Nat → Nat → List Char
  | 0, _ => []
  | f + 1, n =>
    if n < 10 then [Char.ofNat (48 + n)]
    else natDigitsAux f (n / 10) ++ [Char.ofNat (48 + n % 10)]

/-- Decimal rendering of a natural number, as Python `str(int)`. -/
def natToStr (n : Nat) : String := String.mk (natDigitsAux (n + 1) n)

/-- Decimal rendering of an integer, as Python `str(int)`. -/
def intToStr (n : Int) : String :=
  if n < 0 then "-" ++ natToStr n.natAbs else natToStr n.natAbs

/-- Left-pad with a character to width `w` (no-op when already wider). -/
def leftPad (c : Char) (w : Nat) (s : String) : String :=
  String.mk (List.replicate (w - s.data.length) c) ++ s

/-- Python `f"{n:06d}"`: zero-pad to 6 characters, the sign leading. -/
def pad6 (n : Int) : String :=
  if n < 0 then "-" ++ leftPad '0' 5 (natToStr n.natAbs)
  else leftPad '0' 6 (natToStr n.natAbs)

/-- Fixed-point rendering of a rational with `d` decimals, rounding half to
even on the exact value, as Python `f"{x:.df}"` does on the decimal
expansion (the model works on exact rationals rather than binary doubles,
which can differ from CPython in the last digit at representation
boundaries; no verified claim depends on such a boundary). -/
def formatFixed (d : Nat) (q : ℚ) : String :=
  let scaled := q.num.natAbs * 10 ^ d
  let den := q.den
  let quot := scaled / den
  let rem := scaled % den
  let r : Nat :=
    if den < 2 * rem then quot + 1
    else if 2 * rem < den then quot
    else if quot % 2 = 0 then quot else quot + 1
  let body :=
    if d = 0 then natToStr r
    else natToStr (r / 10 ^ d) ++ "." ++ leftPad '0' d (natToStr (r % 10 ^ d))
  if q.num < 0 then "-" ++ body else body

/-- Hex character as matched by `[a-f0-9]` under `re.IGNORECASE`. -/
def isHexCI (c : Char) : Bool :=
  c.isDigit || (97 ≤ c.toNat && c.toNat ≤ 102) || (65 ≤ c.toNat && c.toNat ≤ 70)

/-- Translation of `re.compile(r"^[a-f0-9]{16}$", re.IGNORECASE).match(name)`
from `discover_state_ids`.  Python's `$` anchor also matches just before a
single newline at the end of the string, so a 17-character name whose last
character is a newline is accepted too. -/
def pyStateIdMatch (s : String) : Bool :=
  let cs := s.data
  (cs.length == 16 && cs.all isHexCI) ||
  (cs.length == 17 && cs.getLast? == some '\n' && (cs.take 16).all isHexCI)

/-- Shape `\d{4}-\d{2}-\d{2}T\d{6}` over exactly 17 characters. -/
def tsShape : List Char → Bool
  | [a, b, c, d, e, f, g, h, i, j, k, l, m, n, o, p, q] =>
    a.isDigit && b.isDigit && c.isDigit && d.isDigit && e == '-' &&
    f.isDigit && g.isDigit && h == '-' && i.isDigit && j.isDigit &&
    k == 'T' && l.isDigit && m.isDigit && n.isDigit && o.isDigit &&
    p.isDigit && q.isDigit
  | _ => false

/-- Translation of `re.compile(r"^\d{4}-\d{2}-\d{2}T\d{6}$").match(name)`
from `discover_reduced_runs`, with the same trailing-newline behaviour of
`$` as `pyStateIdMatch`. -/
def pyTimestampMatch (s : String) : Bool :=
  tsShape s.data || (s.data.getLast? == some '\n' && tsShape s.data.dropLast)

/-- A Python runtime value as returned by the defensive dataset readers. -/
inductive PyVal
  | pnone
  | pstr (s : String)
  | pint (n : Int)
  | pfloat (q : ℚ)
deriving DecidableEq

/-- Python truthiness of a `PyVal` (`if v:`). -/
def PyVal.truthy : PyVal → Bool
  | .pnone => false
  | .pstr s => !(s == "")
  | .pint n => !(n == 0)
  | .pfloat q => !(q == 0)

/-- Python `a or b`. -/
def pyOr (a b : PyVal) : PyVal := if a.truthy then a else b

/-- One item of a 1-d array stored in an HDF5 dataset. -/
inductive HItem
  | hbytes (dec : Option String)
  | hint (n : Int)
  | hfloat (q : ℚ)
deriving DecidableEq

/-- Result of reading a dataset (`ds[()]`): raises, a 1-d array, or a numeric
scalar without `__len__`. -/
inductive HRaw
  | hraises
  | harr (xs : List HItem)
  | hscalInt (n : Int)
  | hscalFloat (q : ℚ)
deriving DecidableEq

/-- An opened HDF5 container: key path to dataset. -/
def HFile := List (String × HRaw)

/-- One filesystem entry under `/SNS/SNAP`: a directory with its listing, or
a file with its byte size and its HDF5 content (`none` when `h5py.File`
would raise on it). -/
inductive FSEntry
  | dir (name : String) (children : List FSEntry)
  | file (name : String) (size : Int) (content : Option HFile)

/-- Name of a filesystem entry. -/
def FSEntry.name : FSEntry → String
  | .dir n _ => n
  | .file n _ _ => n

/-- `Path.is_dir`. -/
def FSEntry.isDir : FSEntry → Bool
  | .dir _ _ => true
  | .file _ _ _ => false

/-- First child of a listing with the given name (real listings have unique
names). -/
def childNamed (children : List FSEntry) (n : String) : Option FSEntry :=
  children.find? (fun e => e.name == n)

/-- Resolve a nonempty relative path under the root listing. -/
def entryAt (children : List FSEntry) : List String → Option FSEntry
  | [] => none
  | [n] => childNamed children n
  | n :: rest =>
    match childNamed children n with
    | some (.dir _ cs) => entryAt cs rest
    | _ => none

/-- `Path.exists` (true for files and directories alike). -/
def pathExists (children : List FSEntry) (p : List String) : Bool :=
  (entryAt children p).isSome

/-- Listing of the directory at a path (`none` when absent or a plain file;
the source never lists a path that exists as a plain file). -/
def lookupDir (children : List FSEntry) (p : List String) : Option (List FSEntry) :=
  match entryAt children p with
  | some (.dir _ cs) => some cs
  | _ => none

/-- Render an absolute path string, as `str(Path)` on paths under the data
root. -/
def pathStr (p : List String) : String :=
  "/SNS/SNAP" ++ p.foldl (fun acc c => acc ++ "/" ++ c) ""

/-- The whole modelled world: the listing of `/SNS/SNAP`, whether `h5py`
imported (`HAS_H5PY`), and the answer of the optional `finddata` CLI
(`none` models the import or lookup raising, the common deployment). -/
structure Env where
  tree : List FSEntry
  hasH5py : Bool
  finddata : Option (List String)

/-- Dataset lookup plus the common unwrap of `read_value` in
`metadata.py` (`get_run_metadata_from_file`): absent key gives the default;
a nonempty array is indexed at 0; bytes are UTF-8 decoded; numeric numpy
values are `.item()`-ed; any exception along the way gives the default
(an empty array reaches `raw.item()`, which raises). -/
def read_value (f : HFile) (key : String) (default : PyVal) : PyVal :=
  match List.lookup key f with
  | none => default
  | some .hraises => default
  | some (.harr []) => default
  | some (.harr (x :: _)) =>
    match x with
    | .hbytes (some s) => .pstr s
    | .hbytes none => default
    | .hint n => .pint n
    | .hfloat q => .pfloat q
  | some (.hscalInt n) => .pint n
  | some (.hscalFloat q) => .pfloat q

/-- The near-duplicate reader of `data.py` (`get_metadata_from_reduced_file`):
reads `mantid_workspace_1/logs/<name>/value` with the same defensive
unwrap (`raw[0] if raw.ndim == 1 else raw` coincides with `raw[0]` on the
1-d arrays of the model). -/
def read_log_value (f : HFile) (log_name : String) (default : PyVal) : PyVal :=
  match List.lookup ("mantid_workspace_1/logs/" ++ log_name ++ "/value") f with
  | none => default
  | some .hraises => default
  | some (.harr []) => default
  | some (.harr (x :: _)) =>
    match x with
    | .hbytes (some s) => .pstr s
    | .hbytes none => default
    | .hint n => .pint n
    | .hfloat q => .pfloat q
  | some (.hscalInt n) => .pint n
  | some (.hscalFloat q) => .pfloat q

/-- Stand-in for Python `str()` of a numpy float title value; no claim
inspects these strings. -/
def floatStr (q : ℚ) : String :=
  if q.den = 1 then intToStr q.num ++ ".0"
  else intToStr q.num ++ "/" ++ natToStr q.den

/-- `read_title` of `get_metadata_from_reduced_file`: the
`mantid_workspace_1/title` dataset when present and readable (decoded or
`str()`-ed; `str()` of an empty array renders `[]`), else the `run_title`
log with default `""`. -/
def read_title (f : HFile) : PyVal :=
  match List.lookup "mantid_workspace_1/title" f with
  | none => read_log_value f "run_title" (.pstr "")
  | some .hraises => read_log_value f "run_title" (.pstr "")
  | some (.harr []) => .pstr "[]"
  | some (.harr (x :: _)) =>
    match x with
    | .hbytes (some s) => .pstr s
    | .hbytes none => read_log_value f "run_title" (.pstr "")
    | .hint n => .pstr (intToStr n)
    | .hfloat q => .pstr (floatStr q)
  | some (.hscalInt n) => .pstr (intToStr n)
  | some (.hscalFloat q) => .pstr (floatStr q)

/-- Python `float(v)`: `none` models a raised exception.  String parsing
covers sign, digits, and one decimal point (exponents, `inf`/`nan` and
digit underscores are outside the model; no claim depends on them). -/
def parsePyFloat (s : String) : Option ℚ :=
  let cs := ((s.data.dropWhile isPySpace).reverse.dropWhile isPySpace).reverse
  let core : List Char → Option ℚ := fun cs =>
    match splitOnChar '.' cs with
    | [a] => if !a.isEmpty && a.all Char.isDigit then some (digitsVal a : ℚ) else none
    | [a, b] =>
      if (!a.isEmpty || !b.isEmpty) && a.all Char.isDigit && b.all Char.isDigit then
        some ((digitsVal a : ℚ) + (digitsVal b : ℚ) / ((10 : ℚ) ^ b.length))
      else none
    | _ => none
  match cs with
  | '+' :: rest => core rest
  | '-' :: rest => (core rest).map Neg.neg
  | rest => core rest

/-- Python `float(v)` over a `PyVal` (`float(None)` raises `TypeError`). -/
def pyFloat : PyVal → Option ℚ
  | .pfloat q => some q
  | .pint n => some (n : ℚ)
  | .pstr s => parsePyFloat s
  | .pnone => none

/-- Python `int(v)` over a `PyVal`; `int` of a float truncates toward zero. -/
def pyInt : PyVal → Option Int
  | .pint n => some n
  | .pfloat q => some (q.num / (q.den : Int))
  | .pstr s => pyIntParse s
  | .pnone => none

/-- The metadata triple of `get_metadata_from_reduced_file`. -/
structure ReducedMeta where
  title : PyVal
  duration : ℚ
  start_time : PyVal
deriving DecidableEq

/-- The all-default triple returned on every failure path. -/
def reducedMetaDefaults : ReducedMeta := ⟨.pstr "", 0, .pstr ""⟩

/-- `get_metadata_from_reduced_file`: defaults without `h5py` or an absent
file, defaults when the container open or any conversion raises (the outer
`except` covers `float(...)`), else the three defensively-read fields,
each replaced by its default when falsy (`or` chains in the source). -/
def get_metadata_from_reduced_file (env : Env) (path : List String) : ReducedMeta :=
  if !env.hasH5py || !pathExists env.tree path then reducedMetaDefaults
  else
    match entryAt env.tree path with
    | some (.file _ _ (some f)) =>
      let t := pyOr (read_title f) (.pstr "")
      match pyFloat (pyOr (read_log_value f "duration" (.pfloat 0)) (.pfloat 0)) with
      | none => reducedMetaDefaults
      | some d => ⟨t, d, pyOr (read_log_value f "start_time" (.pstr "")) (.pstr "")⟩
    | _ => reducedMetaDefaults

/-- `get_snapred_root`: `<root>/<ipts>/shared/SNAPRed`. -/
def snapredRootPath (ipts : String) : List String := [ipts, "shared", "SNAPRed"]

/-- `discover_state_ids`: empty for a missing SNAPRed root, else the sorted
names of immediate subdirectories matching the state-id pattern. -/
def discover_state_ids (env : Env) (ipts : String) : List String :=
  match lookupDir env.tree (snapredRootPath ipts) with
  | none => []
  | some children =>
    sortBy strLe (children.filterMap fun e =>
      match e with
      | .dir n _ => if pyStateIdMatch n then some n else none
      | _ => none)

/-- The state's mode-specific root `<root>/<ipts>/shared/SNAPRed/<state>/<mode>`. -/
def stateModePath (ipts state_id : String) (lite : Bool) : List String :=
  [ipts, "shared", "SNAPRed", state_id, if lite then "lite" else "native"]

/-- Listing of the state's mode-specific root (empty when absent). -/
def stateRootChildren (env : Env) (ipts state_id : String) (lite : Bool) : List FSEntry :=
  (lookupDir env.tree (stateModePath ipts state_id lite)).getD []

/-- One discovered reduction output (`ReducedRun` dataclass). -/
structure ReducedRun where
  run_number : Int
  state_id : String
  timestamp : String
  reduced_file : List String
  record_file : Option (List String)
  pixelmask_file : Option (List String)
  title : PyVal
  duration : ℚ
  start_time : PyVal
deriving DecidableEq

/-- Locate the reduction file inside a timestamp folder: the exact expected
name `reduced_<run:06d>_<timestamp>.nxs` when such an entry exists, else
the first entry matching the glob `reduced_*.nxs`, else `none`. -/
def findReducedFile (run_number : Int) (timestamp : String) (children : List FSEntry) :
    Option String :=
  let exact := "reduced_" ++ pad6 run_number ++ "_" ++ timestamp ++ ".nxs"
  if children.any (fun e => e.name == exact) then some exact
  else
    match children.filter (fun e =>
        strStartsWith e.name "reduced_" && strEndsWith e.name ".nxs") with
    | [] => none
    | g :: _ => some g.name

/-- Contribution of one valid timestamp folder: `none` when no reduction
file is found (the source `continue`s), else the fully built record with
optional companions attached only when they exist and metadata extracted
from the reduced file. -/
def tsRecord (env : Env) (ipts state_id mode runDirName : String) (run_number : Int)
    (tsName : String) (tsChildren : List FSEntry) : Option ReducedRun :=
  match findReducedFile run_number tsName tsChildren with
  | none => none
  | some fname =>
    let base := [ipts, "shared", "SNAPRed", state_id, mode, runDirName, tsName]
    let reducedPath := base ++ [fname]
    let recordPath := base ++ ["ReductionRecord.json"]
    let maskPath := base ++ ["pixelmask_" ++ pad6 run_number ++ "_" ++ tsName ++ ".h5"]
    let md := get_metadata_from_reduced_file env reducedPath
    some { run_number := run_number, state_id := state_id, timestamp := tsName,
           reduced_file := reducedPath,
           record_file := if pathExists env.tree recordPath then some recordPath else none,
           pixelmask_file := if pathExists env.tree maskPath then some maskPath else none,
           title := md.title, duration := md.duration, start_time := md.start_time }

/-- The collection phase of `discover_reduced_runs` in discovery order:
directories whose name `int()`-parses, inside them directories matching the
timestamp pattern, each contributing via `tsRecord`. -/
def rawRecords (env : Env) (ipts state_id : String) (lite : Bool) : List ReducedRun :=
  match lookupDir env.tree (stateModePath ipts state_id lite) with
  | none => []
  | some children =>
    children.flatMap fun runDir =>
      match runDir with
      | .file _ _ _ => []
      | .dir rname rchildren =>
        match pyIntParse rname with
        | none => []
        | some run_number =>
          rchildren.flatMap fun tsEntry =>
            match tsEntry with
            | .file _ _ _ => []
            | .dir tsName tsChildren =>
              if pyTimestampMatch tsName then
                (tsRecord env ipts state_id (if lite then "lite" else "native")
                  rname run_number tsName tsChildren).toList
              else []

/-- The records of one run number, in discovery order (a Python dict grouping
keyed by run number holds exactly these, in this order). -/
def runGroup (l : List ReducedRun) (k : Int) : List ReducedRun :=
  l.filter (fun r => r.run_number == k)

/-- `sorted(runs_by_number.keys())`: the distinct run numbers, ascending. -/
def sortedRunKeys (l : List ReducedRun) : List Int :=
  sortBy (fun a b => decide (a ≤ b)) ((l.map (fun r => r.run_number)).dedup)

/-- Per-run processing of `discover_reduced_runs`: with `latest_only` and
more than one reduction, sort by timestamp descending and keep the first;
otherwise all of them sorted by timestamp ascending. -/
def processGroup (latest_only : Bool) (g : List ReducedRun) : List ReducedRun :=
  if latest_only && decide (1 < g.length) then
    (sortBy (fun a b => strLe b.timestamp a.timestamp) g).take 1
  else sortBy (fun a b => strLe a.timestamp b.timestamp) g

/-- `discover_reduced_runs`: collect, group by run number, process each group,
and flatten in ascending run-number order. -/
def discover_reduced_runs (env : Env) (ipts state_id : String) (lite latest_only : Bool) :
    List ReducedRun :=
  let disc := rawRecords env ipts state_id lite
  (sortedRunKeys disc).flatMap fun k => processGroup latest_only (runGroup disc k)

/-- `discover_all_reduced_data`: `discover_state_ids`, then per state the
latest-only reduced runs, keeping only states with at least one run. -/
def discover_all_reduced_data (env : Env) (ipts : String) (lite : Bool) :
    List (String × List ReducedRun) :=
  (discover_state_ids env ipts).filterMap fun state_id =>
    match discover_reduced_runs env ipts state_id lite true with
    | [] => none
    | runs => some (state_id, runs)

/-- A JSON-ready value of the serialized dictionaries. -/
inductive DVal
  | dnull
  | dstr (s : String)
  | dint (n : Int)
  | dfloat (q : ℚ)
deriving DecidableEq

/-- Embed a runtime value into the serialized form. -/
def PyVal.toDVal : PyVal → DVal
  | .pnone => .dnull
  | .pstr s => .dstr s
  | .pint n => .dint n
  | .pfloat q => .dfloat q

/-- Python dict update of one key: overwrite in place when present, append
otherwise. -/
def pyUpsert (d : List (String × DVal)) (k : String) (v : DVal) :
    List (String × DVal) :=
  if d.any (fun p => p.1 == k) then
    d.map (fun p => if p.1 == k then (k, v) else p)
  else d ++ [(k, v)]

/-- Python `{**d, **e}`: keys of `d` in order with values overridden by `e`,
then the new keys of `e` in their order. -/
def pyDictMerge (d e : List (String × DVal)) : List (String × DVal) :=
  e.foldl (fun acc p => pyUpsert acc p.1 p.2) d

/-- Metadata for a single run resolved from its raw file (`RunMetadata`
dataclass).  The three time/title fields keep their Python runtime type
(`PyVal`): the dataclass annotations say `str` but the defensive readers can
hand back numbers. -/
structure RunMetadata where
  run_number : Int
  title : PyVal := .pstr ""
  start_time : PyVal := .pstr ""
  end_time : PyVal := .pstr ""
  duration : ℚ := 0
  total_counts : Int := 0
  file_size_bytes : Int := 0
  file_path : String := ""
  error : Option String := none
  extras : List (String × DVal) := []
deriving DecidableEq

/-- Loop body of `RunMetadata.file_size_display`: divide by 1024 through the
unit list, rendering at the first unit with size below 1024. -/
def sizeLoop : ℚ → List String → String
  | size, [] => formatFixed 2 size ++ " PB"
  | size, u :: us =>
    if size < 1024 then formatFixed 2 size ++ " " ++ u else sizeLoop (size / 1024) us

/-- `RunMetadata.file_size_display`. -/
def RunMetadata.file_size_display (m : RunMetadata) : String :=
  sizeLoop (m.file_size_bytes : ℚ) ["B", "KB", "MB", "GB", "TB"]

/-- `RunMetadata.duration_display`. -/
def RunMetadata.duration_display (m : RunMetadata) : String :=
  if m.duration < 60 then formatFixed 0 m.duration ++ " sec"
  else if m.duration < 3600 then formatFixed 1 (m.duration / 60) ++ " min"
  else formatFixed 1 (m.duration / 3600) ++ " hours"

/-- `RunMetadata.count_rate_display`: the division happens only under the
`duration > 0` guard; otherwise `"N/A"`. -/
def RunMetadata.count_rate_display (m : RunMetadata) : String :=
  if m.duration > 0 then
    formatFixed 3 ((m.total_counts : ℚ) / m.duration / 1000000) ++ " ME/s"
  else "N/A"

/-- Days of a month under the proleptic Gregorian calendar used by
`datetime`. -/
def daysInMonth (y m : Nat) : Nat :=
  if m == 2 then
    if (y % 4 == 0 && y % 100 != 0) || y % 400 == 0 then 29 else 28
  else if m == 4 || m == 6 || m == 9 || m == 11 then 30 else 31

/-- Parse exactly `YYYY-MM-DDTHH:MM:SS` with `datetime.strptime` validity
(years are modelled as the zero-padded 4-digit ISO form the source's
docstrings show; `datetime` further requires year ≥ 1, a valid calendar
day, hour ≤ 23, minute and second ≤ 59). -/
def parseDT (cs : List Char) : Option (Nat × Nat × Nat × Nat × Nat × Nat) :=
  match cs with
  | [y1, y2, y3, y4, s1, m1, m2, s2, d1, d2, t, h1, h2, c1, i1, i2, c2, e1, e2] =>
    if y1.isDigit && y2.isDigit && y3.isDigit && y4.isDigit && s1 == '-' &&
       m1.isDigit && m2.isDigit && s2 == '-' && d1.isDigit && d2.isDigit &&
       t == 'T' && h1.isDigit && h2.isDigit && c1 == ':' && i1.isDigit &&
       i2.isDigit && c2 == ':' && e1.isDigit && e2.isDigit then
      let y := digitsVal [y1, y2, y3, y4]
      let mo := digitsVal [m1, m2]
      let d := digitsVal [d1, d2]
      let h := digitsVal [h1, h2]
      let mi := digitsVal [i1, i2]
      let se := digitsVal [e1, e2]
      if 1 ≤ y && 1 ≤ mo && mo ≤ 12 && 1 ≤ d && d ≤ daysInMonth y mo &&
         h ≤ 23 && mi ≤ 59 && se ≤ 59 then
        some (y, mo, d, h, mi, se)
      else none
    else none
  | _ => none

/-- Zero-padded 2-digit rendering. -/
def pad2 (n : Nat) : String := leftPad '0' 2 (natToStr n)

/-- Render `%Y-%m-%d %H:%M:%S`. -/
def renderDT : Nat × Nat × Nat × Nat × Nat × Nat → String
  | (y, mo, d, h, mi, se) =>
    leftPad '0' 4 (natToStr y) ++ "-" ++ pad2 mo ++ "-" ++ pad2 d ++ " " ++
    pad2 h ++ ":" ++ pad2 mi ++ ":" ++ pad2 se

/-- `RunMetadata._format_timestamp`: `"N/A"` for falsy input, else parse the
first 19 characters as `%Y-%m-%dT%H:%M:%S` and reformat, falling back to
the raw string when parsing raises `ValueError`/`IndexError`.  Slicing a
nonzero number raises `TypeError`, which the method does not catch:
modelled as `none`. -/
def pyFormatTimestamp : PyVal → Option String
  | .pnone => some "N/A"
  | .pstr s =>
    if s == "" then some "N/A"
    else
      match parseDT (s.data.take 19) with
      | some dt => some (renderDT dt)
      | none => some s
  | .pint n => if n == 0 then some "N/A" else none
  | .pfloat q => if q == 0 then some "N/A" else none

/-- `RunMetadata.to_dict`: the thirteen fixed entries in source order with
the derived display fields, then `**self.extras` merged Python-style.
`none` models the uncaught `TypeError` of formatting a nonzero numeric
timestamp. -/
def RunMetadata.to_dict (m : RunMetadata) : Option (List (String × DVal)) :=
  match pyFormatTimestamp m.start_time, pyFormatTimestamp m.end_time with
  | some sf, some ef =>
    some (pyDictMerge
      [("run_number", .dint m.run_number),
       ("title", m.title.toDVal),
       ("start_time", m.start_time.toDVal),
       ("end_time", m.end_time.toDVal),
       ("start_time_formatted", .dstr sf),
       ("end_time_formatted", .dstr ef),
       ("duration", .dfloat m.duration),
       ("duration_display", .dstr m.duration_display),
       ("total_counts", .dint m.total_counts),
       ("count_rate_display", .dstr m.count_rate_display),
       ("file_size_bytes", .dint m.file_size_bytes),
       ("file_size_display", .dstr m.file_size_display),
       ("file_path", .dstr m.file_path),
       ("error", match m.error with | none => .dnull | some e => .dstr e)]
      m.extras)
  | _, _ => none

/-- File name of a native raw NeXus file, `SNAP_<run>.nxs.h5`. -/
def nativeName (run : Int) : String := "SNAP_" ++ intToStr run ++ ".nxs.h5"

/-- File name of a condensed raw NeXus file, `SNAP_<run>.lite.nxs.h5`. -/
def liteName (run : Int) : String := "SNAP_" ++ intToStr run ++ ".lite.nxs.h5"

/-- First stage of `find_nexus_file`: when a truthy IPTS string is supplied
and its folder exists, probe the native then the condensed path inside it. -/
def findInNamedIpts (env : Env) (run : Int) : Option String → Option (List String)
  | none => none
  | some i =>
    if i == "" then none
    else if env.tree.any (fun e => e.name == i) then
      let native := [i, "nexus", nativeName run]
      if pathExists env.tree native then some native
      else
        let lp := [i, "shared", "lite", liteName run]
        if pathExists env.tree lp then some lp else none
    else none

/-- Second stage of `find_nexus_file`: the `finddata` CLI answer, kept only
when the returned location exists. -/
def finddataStep (env : Env) : Option (List String) :=
  match env.finddata with
  | some p => if pathExists env.tree p then some p else none
  | none => none

/-- Probe one IPTS folder for the run: native first, condensed second. -/
def matchInIptsDir (tree : List FSEntry) (run : Int) (dirName : String) :
    Option (List String) :=
  let native := [dirName, "nexus", nativeName run]
  if pathExists tree native then some native
  else
    let lp := [dirName, "shared", "lite", liteName run]
    if pathExists tree lp then some lp else none

/-- `sorted(base.glob("IPTS-*"), reverse=True)`, as names. -/
def iptsScanNames (tree : List FSEntry) : List String :=
  sortBy (fun a b => strLe b a)
    (tree.filterMap fun e => if strStartsWith e.name "IPTS-" then some e.name else none)

/-- Third stage of `find_nexus_file`: scan the IPTS folders in reverse
lexical order, returning the first probe hit. -/
def scanIptsDirs (env : Env) (run : Int) : Option (List String) :=
  (iptsScanNames env.tree).findSome? (matchInIptsDir env.tree run)

/-- `find_nexus_file`: named-IPTS probe, then `finddata`, then the reverse
scan of all IPTS folders. -/
def find_nexus_file (env : Env) (run : Int) (ipts : Option String) :
    Option (List String) :=
  match findInNamedIpts env run ipts with
  | some p => some p
  | none =>
    match finddataStep env with
    | some p => some p
    | none => scanIptsDirs env run

/-- Run number from a raw file name: after a `SNAP_` marker, the piece before
the first dot of the piece after the first underscore, `int()`-parsed with
failures giving 0. -/
def parseRunFromName (name : String) : Int :=
  if strStartsWith name "SNAP_" then
    match splitOnChar '_' name.data with
    | _ :: part1 :: _ =>
      match splitOnChar '.' part1 with
      | piece :: _ => (pyIntParse (String.mk piece)).getD 0
      | [] => 0
    | _ => 0
  else 0

/-- `get_run_metadata_from_file`: error records for a missing path or absent
`h5py`; else open the container and read the five `entry/*` keys
defensively, with `float(...)`/`int(...)` conversion failures and open
failures caught into an error record.  (The source embeds the exception
text in its message; the model uses a fixed marker.) -/
def get_run_metadata_from_file (env : Env) (path : List String) : RunMetadata :=
  if !pathExists env.tree path then
    { run_number := 0, error := some ("File not found: " ++ pathStr path) }
  else if !env.hasH5py then
    { run_number := 0, error := some "h5py not installed" }
  else
    let run_number := parseRunFromName ((path.getLast?).getD "")
    match entryAt env.tree path with
    | some (.file _ size (some f)) =>
      let title := read_value f "entry/title" (.pstr "")
      let start_time := read_value f "entry/start_time" (.pstr "")
      let end_time := read_value f "entry/end_time" (.pstr "")
      match pyFloat (read_value f "entry/duration" (.pfloat 0)) with
      | none => { run_number := run_number, error := some "Error reading file" }
      | some d =>
        match pyInt (read_value f "entry/total_counts" (.pint 0)) with
        | none => { run_number := run_number, error := some "Error reading file" }
        | some tc =>
          { run_number := run_number, title := title, start_time := start_time,
            end_time := end_time, duration := d, total_counts := tc,
            file_size_bytes := size, file_path := pathStr path, error := none }
    | _ => { run_number := run_number, error := some "Error reading file" }

/-- `get_run_metadata`: locate the file, or report an error naming the run
(and the IPTS when a truthy one was supplied). -/
def get_run_metadata (env : Env) (run : Int) (ipts : Option String) : RunMetadata :=
  match find_nexus_file env run ipts with
  | some p => get_run_metadata_from_file env p
  | none =>
    match ipts with
    | some i =>
      if i == "" then
        { run_number := run,
          error := some ("Could not locate file for run " ++ intToStr run) }
      else
        { run_number := run,
          error := some ("Could not locate file for run " ++ intToStr run ++ " in " ++ i) }
    | none =>
      { run_number := run,
        error := some ("Could not locate file for run " ++ intToStr run) }

/-! Concrete environments used by witnesses and counterexamples. -/

/-- Timestamp of the earlier reduction in the worked example. -/
def tsEarly : String := "2025-05-08T162147"

/-- Timestamp of the later reduction in the worked example. -/
def tsLate : String := "2025-05-09T090000"

/-- A tree with one run reduced at two timestamps, plus a non-numeric run
folder and a state directory whose name ends in a newline. -/
def envTwo : Env :=
  ⟨[.dir "IPTS-1" [.dir "shared" [.dir "SNAPRed"
      [.dir "abcdefabcdefabcd" [.dir "lite"
        [.dir "7" [.dir tsEarly [.file ("reduced_000007_" ++ tsEarly ++ ".nxs") 10 none],
                   .dir tsLate [.file ("reduced_000007_" ++ tsLate ++ ".nxs") 10 none]],
         .dir "abc" [.dir tsEarly [.file ("reduced_000007_" ++ tsEarly ++ ".nxs") 10 none]]]],
       .dir "0123456789abcdef\n" []]]]],
   false, none⟩

/-- The record discovered at the earlier timestamp of `envTwo`. -/
def recEarly : ReducedRun :=
  { run_number := 7, state_id := "abcdefabcdefabcd", timestamp := tsEarly,
    reduced_file := ["IPTS-1", "shared", "SNAPRed", "abcdefabcdefabcd", "lite", "7",
                     tsEarly, "reduced_000007_" ++ tsEarly ++ ".nxs"],
    record_file := none, pixelmask_file := none,
    title := .pstr "", duration := 0, start_time := .pstr "" }

/-- The record discovered at the later timestamp of `envTwo`. -/
def recLate : ReducedRun :=
  { run_number := 7, state_id := "abcdefabcdefabcd", timestamp := tsLate,
    reduced_file := ["IPTS-1", "shared", "SNAPRed", "abcdefabcdefabcd", "lite", "7",
                     tsLate, "reduced_000007_" ++ tsLate ++ ".nxs"],
    record_file := none, pixelmask_file := none,
    title := .pstr "", duration := 0, start_time := .pstr "" }

/-- A tree whose state root contains a run folder named `-3`: Python's
`int()` accepts the minus sign. -/
def envNeg : Env :=
  ⟨[.dir "IPTS-1" [.dir "shared" [.dir "SNAPRed" [.dir "s" [.dir "lite"
      [.dir "-3" [.dir tsEarly [.file "reduced_x.nxs" 0 none]]]]]]]],
   false, none⟩

/-- The record discovered under the `-3` folder of `envNeg`. -/
def recNeg : ReducedRun :=
  { run_number := -3, state_id := "s", timestamp := tsEarly,
    reduced_file := ["IPTS-1", "shared", "SNAPRed", "s", "lite", "-3", tsEarly,
                     "reduced_x.nxs"],
    record_file := none, pixelmask_file := none,
    title := .pstr "", duration := 0, start_time := .pstr "" }

/-- A timestamp folder holding only an unconventionally named reduction
file, discovered through the glob fallback. -/
def globChildren : List FSEntry := [.file "reduced_custom_20250101.nxs" 0 none]

/-- The empty world: nothing under the data root. -/
def envEmpty : Env := ⟨[], true, none⟩

/-- Two experiment folders where only `IPTS-B` holds run 7's raw file (an
openable container with no keys). -/
def envCross : Env :=
  ⟨[.dir "IPTS-A" [], .dir "IPTS-B" [.dir "nexus" [.file "SNAP_7.nxs.h5" 42 (some [])]]],
   true, none⟩

/-- A metadata record with zero duration. -/
def mZero : RunMetadata := { run_number := 1, duration := 0 }

/-- The worked count-rate example: six million counts over two seconds. -/
def mRate : RunMetadata := { run_number := 1, duration := 2, total_counts := 6000000 }

/-- A metadata record whose extras shadow the fixed keys `error` and
`title`. -/
def mShadow : RunMetadata :=
  { run_number := 1,
    extras := [("error", .dstr "boom"), ("title", .dstr "shadow"), ("zzz", .dint 9)] }

/-! Order and sorting lemmas. -/

theorem lexLe_refl (as : List Char) : lexLe as as = true := by
  induction as with
  | nil => rfl
  | cons a as ih => simp [lexLe, ih]

theorem lexLe_total (as bs : List Char) : lexLe as bs = true ∨ lexLe bs as = true := by
  induction as generalizing bs with
  | nil => left; rfl
  | cons a as ih =>
    cases bs with
    | nil => right; rfl
    | cons b bs =>
      simp only [lexLe]
      rcases Nat.lt_trichotomy a.toNat b.toNat with h | h | h
      · left; simp [h]
      · have h2 : ¬ a.toNat < b.toNat := by omega
        have h3 : ¬ b.toNat < a.toNat := by omega
        simpa [h2, h3] using ih bs
      · right; simp [h]

theorem lexLe_trans {as bs cs : List Char} (h1 : lexLe as bs = true)
    (h2 : lexLe bs cs = true) : lexLe as cs = true := by
  induction as generalizing bs cs with
  | nil => rfl
  | cons a as ih =>
    cases bs with
    | nil => simp [lexLe] at h1
    | cons b bs =>
      cases cs with
      | nil => simp [lexLe] at h2
      | cons c cs =>
        simp only [lexLe] at h1 h2 ⊢
        rcases Nat.lt_trichotomy a.toNat c.toNat with h | h | h
        · simp [h]
        · have h3 : ¬ a.toNat < c.toNat := by omega
          have h4 : ¬ c.toNat < a.toNat := by omega
          simp only [if_neg h3, if_neg h4]
          by_cases hab : a.toNat < b.toNat
          · by_cases hbc : b.toNat < c.toNat
            · omega
            · have hcb : c.toNat < b.toNat := by
                rcases Nat.lt_trichotomy b.toNat c.toNat with h' | h' | h' <;> omega
              simp [if_neg (by omega : ¬ b.toNat < c.toNat), hcb] at h2
          · by_cases hba : b.toNat < a.toNat
            · simp [if_neg hab, hba] at h1
            · have hab2 : a.toNat = b.toNat := by omega
              by_cases hbc : b.toNat < c.toNat
              · omega
              · have hcb : ¬ c.toNat < b.toNat := by omega
                simp only [if_neg hab, if_neg hba] at h1
                simp only [if_neg hbc, if_neg hcb] at h2
                exact ih h1 h2
        · exfalso
          by_cases hab : a.toNat < b.toNat
          · by_cases hbc : b.toNat < c.toNat
            · omega
            · have : c.toNat < b.toNat := by omega
              simp [if_neg (by omega : ¬ b.toNat < c.toNat), this] at h2
          · by_cases hba : b.toNat < a.toNat
            · simp [if_neg hab, hba] at h1
            · have : c.toNat < b.toNat := by omega
              simp [if_neg (by omega : ¬ b.toNat < c.toNat), this] at h2

theorem strLe_refl (a : String) : strLe a a = true := lexLe_refl a.data

theorem strLe_total (a b : String) : strLe a b = true ∨ strLe b a = true :=
  lexLe_total a.data b.data

theorem strLe_trans {a b c : String} (h1 : strLe a b = true) (h2 : strLe b c = true) :
    strLe a c = true := lexLe_trans h1 h2

theorem insertBy_perm (le : α → α → Bool) (x : α) (l : List α) :
    List.Perm (insertBy le x l) (x :: l) := by
  induction l with
  | nil => exact List.Perm.refl _
  | cons y ys ih =>
    simp only [insertBy]
    by_cases h : le x y = true
    · simp [h]
    · simp only [if_neg h]
      exact ((ih.cons y).trans (List.Perm.swap x y ys))

theorem sortBy_perm (le : α → α → Bool) (l : List α) : List.Perm (sortBy le l) l := by
  induction l with
  | nil => exact List.Perm.refl _
  | cons a l ih => exact (insertBy_perm le a (sortBy le l)).trans (ih.cons a)

theorem mem_sortBy {le : α → α → Bool} {l : List α} {a : α} :
    a ∈ sortBy le l ↔ a ∈ l := (sortBy_perm le l).mem_iff

theorem pairwise_insertBy {le : α → α → Bool}
    (htot : ∀ a b, le a b = true ∨ le b a = true)
    (htrans : ∀ {a b c}, le a b = true → le b c = true → le a c = true)
    {x : α} {l : List α} (h : l.Pairwise (fun a b => le a b = true)) :
    (insertBy le x l).Pairwise (fun a b => le a b = true) := by
  induction l with
  | nil => simp [insertBy]
  | cons y ys ih =>
    simp only [insertBy]
    rcases List.pairwise_cons.mp h with ⟨hy, hys⟩
    by_cases hxy : le x y = true
    · rw [if_pos hxy]
      refine List.pairwise_cons.mpr ⟨?_, h⟩
      intro b hb
      rcases List.mem_cons.mp hb with rfl | hb
      · exact hxy
      · exact htrans hxy (hy _ hb)
    · have hyx : le y x = true := (htot x y).resolve_left hxy
      rw [if_neg hxy]
      refine List.pairwise_cons.mpr ⟨?_, ih hys⟩
      intro b hb
      rcases List.mem_cons.mp ((insertBy_perm le x ys).mem_iff.mp hb) with rfl | hm
      · exact hyx
      · exact hy _ hm

theorem sortBy_pairwise {le : α → α → Bool}
    (htot : ∀ a b, le a b = true ∨ le b a = true)
    (htrans : ∀ {a b c}, le a b = true → le b c = true → le a c = true)
    (l : List α) : (sortBy le l).Pairwise (fun a b => le a b = true) := by
  induction l with
  | nil => simp [sortBy]
  | cons a l ih => exact pairwise_insertBy htot htrans ih

theorem mem_runGroup {l : List ReducedRun} {k : Int} {r : ReducedRun} :
    r ∈ runGroup l k ↔ r ∈ l ∧ r.run_number = k := by
  simp [runGroup, List.mem_filter]

theorem sortedRunKeys_nodup (l : List ReducedRun) : (sortedRunKeys l).Nodup :=
  ((sortBy_perm _ _).nodup_iff).mpr (List.nodup_dedup _)

theorem sortedRunKeys_pairwise (l : List ReducedRun) :
    (sortedRunKeys l).Pairwise (fun a b => a < b) := by
  have hle : (sortedRunKeys l).Pairwise (fun a b : Int => decide (a ≤ b) = true) :=
    sortBy_pairwise (fun a b => by rcases Int.le_total a b with h | h <;> simp [h])
      (fun {a b c} h1 h2 => by
        simp only [decide_eq_true_eq] at h1 h2 ⊢; exact le_trans h1 h2) _
  have hne : (sortedRunKeys l).Pairwise (fun a b : Int => a ≠ b) := sortedRunKeys_nodup l
  exact (hle.and hne).imp fun {a b} h =>
    lt_of_le_of_ne (by simpa using h.1) h.2

theorem mem_sortedRunKeys {l : List ReducedRun} {r : ReducedRun} (h : r ∈ l) :
    r.run_number ∈ sortedRunKeys l := by
  unfold sortedRunKeys
  exact mem_sortBy.mpr ((List.mem_dedup).mpr (List.mem_map_of_mem _ h))

theorem flatMap_congr_mem {l : List Int} {f g : Int → List β}
    (h : ∀ k ∈ l, f k = g k) : l.flatMap f = l.flatMap g := by
  induction l with
  | nil => rfl
  | cons a l ih =>
    simp only [List.flatMap_cons]
    rw [h a (List.mem_cons_self a l), ih fun k hk => h k (List.mem_cons_of_mem _ hk)]

theorem groups_perm (keys : List Int) (l : List ReducedRun) (hnd : keys.Nodup)
    (hcov : ∀ r ∈ l, r.run_number ∈ keys) :
    List.Perm (keys.flatMap fun k => runGroup l k) l := by
  induction keys generalizing l with
  | nil =>
    have : l = [] := List.eq_nil_iff_forall_not_mem.mpr fun r hr => by
      simpa using hcov r hr
    simp [this]
  | cons k ks ih =>
    rcases List.nodup_cons.mp hnd with ⟨hk, hks⟩
    simp only [List.flatMap_cons]
    have hrw : (ks.flatMap fun k' => runGroup l k') =
        ks.flatMap fun k' => runGroup (l.filter fun r => !(r.run_number == k)) k' := by
      refine flatMap_congr_mem fun k' hk' => ?_
      have hne : k' ≠ k := fun h => hk (h ▸ hk')
      unfold runGroup
      rw [List.filter_filter]
      refine List.filter_congr fun r _ => ?_
      by_cases h : r.run_number = k'
      · simp [h, hne]
      · simp [h]
    have hperm : List.Perm
        (ks.flatMap fun k' => runGroup (l.filter fun r => !(r.run_number == k)) k')
        (l.filter fun r => !(r.run_number == k)) := by
      refine ih _ hks fun r hr => ?_
      rcases List.mem_filter.mp hr with ⟨hrl, hne⟩
      rcases List.mem_cons.mp (hcov r hrl) with h | h
      · simp [h] at hne
      · exact h
    rw [hrw]
    refine List.Perm.trans (List.Perm.append_left _ hperm) ?_
    simpa [runGroup] using List.filter_append_perm (fun r => r.run_number == k) l

theorem processGroup_mem {lo : Bool} {g : List ReducedRun} {r : ReducedRun}
    (h : r ∈ processGroup lo g) : r ∈ g := by
  unfold processGroup at h
  by_cases hc : (lo && decide (1 < g.length)) = true
  · rw [if_pos hc] at h
    exact mem_sortBy.mp (List.mem_of_mem_take h)
  · rw [if_neg hc] at h
    exact mem_sortBy.mp h

theorem processGroup_false (g : List ReducedRun) :
    processGroup false g = sortBy (fun a b => strLe a.timestamp b.timestamp) g := by
  simp [processGroup]

theorem processGroup_length_pos {lo : Bool} {g : List ReducedRun} (h : g ≠ []) :
    0 < (processGroup lo g).length := by
  unfold processGroup
  have hg : 0 < g.length := List.length_pos.mpr h
  by_cases hc : (lo && decide (1 < g.length)) = true
  · rw [if_pos hc]
    have : 0 < (sortBy (fun a b => strLe b.timestamp a.timestamp) g).length := by
      rw [(sortBy_perm _ g).length_eq]; exact hg
    simpa [List.length_take] using this
  · rw [if_neg hc, (sortBy_perm _ g).length_eq]; exact hg

theorem processGroup_true_length (g : List ReducedRun) :
    (processGroup true g).length ≤ 1 := by
  unfold processGroup
  by_cases hc : (true && decide (1 < g.length)) = true
  · rw [if_pos hc]; simp [List.length_take]
  · rw [if_neg hc, (sortBy_perm _ g).length_eq]
    have h1 : ¬ 1 < g.length := by simpa using hc
    omega

theorem pairwise_of_length_le_one {R : α → α → Prop} {l : List α}
    (h : l.length ≤ 1) : l.Pairwise R := by
  match l, h with
  | [], _ => exact List.Pairwise.nil
  | [a], _ => simp

theorem processGroup_true_max {g : List ReducedRun} {r : ReducedRun}
    (h : r ∈ processGroup true g) :
    ∀ s ∈ g, strLe s.timestamp r.timestamp = true := by
  intro s hs
  unfold processGroup at h
  have htot : ∀ a b : ReducedRun, strLe b.timestamp a.timestamp = true ∨
      strLe a.timestamp b.timestamp = true := fun a b => strLe_total _ _
  by_cases hc : (true && decide (1 < g.length)) = true
  · rw [if_pos hc] at h
    have hp : (sortBy (fun a b => strLe b.timestamp a.timestamp) g).Pairwise
        (fun a b => strLe b.timestamp a.timestamp = true) :=
      sortBy_pairwise htot (fun {a b c} h1 h2 => strLe_trans h2 h1) g
    rcases hsort : sortBy (fun a b => strLe b.timestamp a.timestamp) g with _ | ⟨x, xs⟩
    · rw [hsort] at h; simp at h
    · rw [hsort] at h
      simp only [List.take_succ_cons, List.take_zero, List.mem_singleton] at h
      subst h
      have hs' : s ∈ sortBy (fun a b => strLe b.timestamp a.timestamp) g :=
        mem_sortBy.mpr hs
      rw [hsort] at hs' hp
      rcases List.mem_cons.mp hs' with rfl | hmem
      · exact strLe_refl _
      · exact (List.pairwise_cons.mp hp).1 s hmem
  · rw [if_neg hc] at h
    have h1 : ¬ 1 < g.length := by simpa using hc
    match g, hs with
    | [a], hs =>
      rcases List.mem_singleton.mp hs with rfl
      have hr : r ∈ [s] := mem_sortBy.mp h
      rcases List.mem_singleton.mp hr with rfl
      exact strLe_refl _
    | a :: b :: l, hs => exact absurd h1 (by simp)

theorem pairwise_flatMap {R : α → α → Prop} {keys : List Int} {f : Int → List α}
    {key : α → Int} (hk : keys.Pairwise (fun a b => a < b))
    (hmem : ∀ k r, r ∈ f k → key r = k) (hinner : ∀ k, (f k).Pairwise R)
    (hcross : ∀ a b, key a < key b → R a b) :
    (keys.flatMap f).Pairwise R := by
  induction keys with
  | nil => exact List.Pairwise.nil
  | cons k ks ih =>
    simp only [List.flatMap_cons]
    refine List.pairwise_append.mpr ⟨hinner k, ih (List.pairwise_cons.mp hk).2, ?_⟩
    intro a ha b hb
    rcases List.mem_flatMap.mp hb with ⟨k', hk', hb'⟩
    refine hcross a b ?_
    rw [hmem k a ha, hmem k' b hb']
    exact (List.pairwise_cons.mp hk).1 k' hk'

theorem flatMap_perm_of_perm {l : List Int} {f g : Int → List β}
    (h : ∀ k ∈ l, List.Perm (f k) (g k)) :
    List.Perm (l.flatMap f) (l.flatMap g) := by
  induction l with
  | nil => exact List.Perm.refl _
  | cons a l ih =>
    simp only [List.flatMap_cons]
    exact List.Perm.append (h a (List.mem_cons_self a l))
      (ih fun k hk => h k (List.mem_cons_of_mem _ hk))

theorem discover_eq (env : Env) (ipts state_id : String) (lite latest_only : Bool) :
    discover_reduced_runs env ipts state_id lite latest_only =
      (sortedRunKeys (rawRecords env ipts state_id lite)).flatMap
        fun k => processGroup latest_only
          (runGroup (rawRecords env ipts state_id lite) k) := rfl

theorem tsRecord_run {env : Env} {ipts sid mode rname : String} {run_number : Int}
    {tsName : String} {tsChildren : List FSEntry} {r : ReducedRun}
    (h : tsRecord env ipts sid mode rname run_number tsName tsChildren = some r) :
    r.run_number = run_number := by
  unfold tsRecord at h
  rcases hf : findReducedFile run_number tsName tsChildren with _ | fname
  · rw [hf] at h; simp at h
  · rw [hf] at h
    simp only [Option.some_inj] at h
    subst h; rfl

theorem rawRecords_run_from_dir {env : Env} {ipts sid : String} {lite : Bool}
    {r : ReducedRun} (h : r ∈ rawRecords env ipts sid lite) :
    ∃ e ∈ stateRootChildren env ipts sid lite,
      e.isDir = true ∧ pyIntParse e.name = some r.run_number := by
  unfold rawRecords at h
  rcases hl : lookupDir env.tree (stateModePath ipts sid lite) with _ | children
  · rw [hl] at h; simp at h
  · rw [hl] at h
    have hsc : stateRootChildren env ipts sid lite = children := by
      unfold stateRootChildren; rw [hl]; rfl
    rcases List.mem_flatMap.mp h with ⟨runDir, hrd, hin⟩
    cases runDir with
    | file nm sz c => simp at hin
    | dir rname rchildren =>
      dsimp only at hin
      rcases hp : pyIntParse rname with _ | n
      · rw [hp] at hin; simp at hin
      · rw [hp] at hin
        rcases List.mem_flatMap.mp hin with ⟨tsE, hts, hin2⟩
        cases tsE with
        | file nm2 sz2 c2 => simp at hin2
        | dir tsName tsChildren =>
          dsimp only at hin2
          by_cases hm : pyTimestampMatch tsName = true
          · rw [if_pos hm] at hin2
            rcases htr : tsRecord env ipts sid (if lite then "lite" else "native")
                rname n tsName tsChildren with _ | r'
            · rw [htr] at hin2; simp at hin2
            · rw [htr] at hin2
              simp only [Option.toList_some, List.mem_singleton] at hin2
              subst hin2
              refine ⟨.dir rname rchildren, by rw [hsc]; exact hrd, rfl, ?_⟩
              rw [tsRecord_run htr]
              exact hp
          · rw [if_neg hm] at hin2; simp at hin2

theorem lookupDir_none_of_not_exists {tree : List FSEntry} {p : List String}
    (h : pathExists tree p = false) : lookupDir tree p = none := by
  unfold pathExists at h
  unfold lookupDir
  rcases he : entryAt tree p with _ | e
  · rfl
  · rw [he] at h; simp at h

/-- C1: over every directory tree, `discover_reduced_runs` with
`latest_only = true` returns at most one record per run number (strictly
ascending run numbers), each one a discovered record whose timestamp is
lexicographically greatest among that run's discovered records, and every
discovered run number is represented; with `latest_only = false` it returns
every discovered reduction, ordered with run numbers ascending and
timestamps ascending within each run. -/
theorem C1_discover_grouping (env : Env) (ipts state_id : String) (lite : Bool) :
    ((discover_reduced_runs env ipts state_id lite true).Pairwise
        (fun a b => a.run_number < b.run_number)
      ∧ (∀ r ∈ discover_reduced_runs env ipts state_id lite true,
          r ∈ rawRecords env ipts state_id lite
          ∧ ∀ s ∈ rawRecords env ipts state_id lite,
              s.run_number = r.run_number → strLe s.timestamp r.timestamp = true)
      ∧ ∀ s ∈ rawRecords env ipts state_id lite,
          ∃ r ∈ discover_reduced_runs env ipts state_id lite true,
            r.run_number = s.run_number)
    ∧ (List.Perm (discover_reduced_runs env ipts state_id lite false)
          (rawRecords env ipts state_id lite)
      ∧ (discover_reduced_runs env ipts state_id lite false).Pairwise
          (fun a b => a.run_number < b.run_number
            ∨ (a.run_number = b.run_number ∧ strLe a.timestamp b.timestamp = true))) := by
  have hkeys_pw := sortedRunKeys_pairwise (rawRecords env ipts state_id lite)
  refine ⟨⟨?_, ?_, ?_⟩, ?_, ?_⟩
  · rw [discover_eq]
    exact pairwise_flatMap hkeys_pw
      (fun k r h => (mem_runGroup.mp (processGroup_mem h)).2)
      (fun k => pairwise_of_length_le_one (processGroup_true_length _))
      (fun a b h => h)
  · intro r hr
    rw [discover_eq] at hr
    rcases List.mem_flatMap.mp hr with ⟨k, hk, hpk⟩
    have hmem := mem_runGroup.mp (processGroup_mem hpk)
    refine ⟨hmem.1, fun s hs hrun => ?_⟩
    exact processGroup_true_max hpk s (mem_runGroup.mpr ⟨hs, by rw [hrun, hmem.2]⟩)
  · intro s hs
    have hk : s.run_number ∈ sortedRunKeys (rawRecords env ipts state_id lite) :=
      mem_sortedRunKeys hs
    have hne : runGroup (rawRecords env ipts state_id lite) s.run_number ≠ [] := by
      intro hnil
      have hmem : s ∈ runGroup (rawRecords env ipts state_id lite) s.run_number :=
        mem_runGroup.mpr ⟨hs, rfl⟩
      rw [hnil] at hmem
      exact List.not_mem_nil s hmem
    rcases List.exists_mem_of_length_pos
      (@processGroup_length_pos true
        (runGroup (rawRecords env ipts state_id lite) s.run_number) hne)
      with ⟨r, hrmem⟩
    refine ⟨r, ?_, ?_⟩
    · rw [discover_eq]; exact List.mem_flatMap.mpr ⟨s.run_number, hk, hrmem⟩
    · exact (mem_runGroup.mp (processGroup_mem hrmem)).2
  · rw [discover_eq]
    refine List.Perm.trans (flatMap_perm_of_perm fun k _ => ?_)
      (groups_perm (sortedRunKeys (rawRecords env ipts state_id lite))
        (rawRecords env ipts state_id lite) (sortedRunKeys_nodup _)
        fun r h => mem_sortedRunKeys h)
    rw [processGroup_false]
    exact sortBy_perm _ _
  · rw [discover_eq]
    refine pairwise_flatMap hkeys_pw
      (fun k r h => (mem_runGroup.mp (processGroup_mem h)).2)
      (fun k => ?_) (fun a b h => Or.inl h)
    rw [processGroup_false]
    have hpw := @sortBy_pairwise ReducedRun
      (fun a b => strLe a.timestamp b.timestamp)
      (fun a b => strLe_total _ _) (fun {a b c} => strLe_trans)
      (runGroup (rawRecords env ipts state_id lite) k)
    refine List.Pairwise.imp_of_mem ?_ hpw
    intro a b ha hb hts
    have ha' := (mem_runGroup.mp (mem_sortBy.mp ha)).2
    have hb' := (mem_runGroup.mp (mem_sortBy.mp hb)).2
    exact Or.inr ⟨ha'.trans hb'.symm, hts⟩

/-- Witness for C1 on the worked two-timestamp example: the later-timestamp
record is the one the latest-only discovery returns, so the earlier
discovered record's timestamp compares below it. -/
theorem C1_witness : strLe recEarly.timestamp recLate.timestamp = true :=
  ((C1_discover_grouping envTwo "IPTS-1" "abcdefabcdefabcd" true).1.2.1
    recLate (by decide)).2 recEarly (by decide) (by decide)

/-- C2: a missing SNAPRed root yields an empty state-id list, and a missing
mode-specific state root yields an empty reduced-run list; both functions
are total, so absence is never an error. -/
theorem C2_missing_roots_empty :
    (∀ (env : Env) (ipts : String),
      pathExists env.tree (snapredRootPath ipts) = false →
      discover_state_ids env ipts = [])
    ∧ ∀ (env : Env) (ipts state_id : String) (lite latest_only : Bool),
      pathExists env.tree (stateModePath ipts state_id lite) = false →
      discover_reduced_runs env ipts state_id lite latest_only = [] := by
  constructor
  · intro env ipts h
    unfold discover_state_ids
    rw [lookupDir_none_of_not_exists h]
  · intro env ipts sid lite lo h
    have hr : rawRecords env ipts sid lite = [] := by
      unfold rawRecords
      rw [lookupDir_none_of_not_exists h]
    rw [discover_eq, hr]
    rfl

/-- Witness for C2: both discovery calls on the empty data root. -/
theorem C2_witness :
    discover_state_ids envEmpty "IPTS-1" = []
    ∧ discover_reduced_runs envEmpty "IPTS-1" "s" true true = [] :=
  ⟨C2_missing_roots_empty.1 envEmpty "IPTS-1" (by decide),
   C2_missing_roots_empty.2 envEmpty "IPTS-1" "s" true true (by decide)⟩

/-- Counterexample for C3 as stated: a directory whose 17-character name is
16 hex characters followed by a newline is returned by
`discover_state_ids`, because Python's `$` anchor matches before a trailing
newline; the claim promises only exact 16-character hex names. -/
theorem C3_counterexample :
    "0123456789abcdef\n" ∈ discover_state_ids envTwo "IPTS-1"
    ∧ ("0123456789abcdef\n").data.length ≠ 16 := ⟨by decide, by decide⟩

/-- C3 (amended): `discover_state_ids` returns exactly the names of
immediate subdirectories of the SNAPRed root accepted by the anchored
case-insensitive 16-hex regex — that is, 16 hex characters optionally
followed by one trailing newline —, sorted ascending lexically with case
preserved; non-directories are excluded. -/
theorem C3_state_ids_amended (env : Env) (ipts : String) :
    (∀ s, s ∈ discover_state_ids env ipts ↔
      ((∃ cs, lookupDir env.tree (snapredRootPath ipts) = some cs
          ∧ ∃ e ∈ cs, e.isDir = true ∧ e.name = s)
        ∧ pyStateIdMatch s = true))
    ∧ (discover_state_ids env ipts).Pairwise (fun a b => strLe a b = true) := by
  unfold discover_state_ids
  rcases hl : lookupDir env.tree (snapredRootPath ipts) with _ | children
  · refine ⟨fun s => ?_, List.Pairwise.nil⟩
    simp
  · constructor
    · intro s
      rw [mem_sortBy, List.mem_filterMap]
      constructor
      · rintro ⟨e, he, hfe⟩
        cases e with
        | file nm sz c => simp at hfe
        | dir n cs =>
          dsimp only at hfe
          by_cases hm : pyStateIdMatch n = true
          · rw [if_pos hm] at hfe
            rcases Option.some_inj.mp hfe with rfl
            exact ⟨⟨children, rfl, .dir n cs, he, rfl, rfl⟩, hm⟩
          · rw [if_neg hm] at hfe; simp at hfe
      · rintro ⟨⟨cs, hcs, e, he, hd, hn⟩, hm⟩
        rcases Option.some_inj.mp hcs with rfl
        refine ⟨e, he, ?_⟩
        cases e with
        | file nm sz c => simp [FSEntry.isDir] at hd
        | dir n cs2 =>
          dsimp only
          rcases hn with rfl
          have hm' : pyStateIdMatch n = true := hm
          rw [if_pos hm']
          rfl
    · exact sortBy_pairwise (fun a b => strLe_total a b)
        (fun {a b c} => strLe_trans) _

/-- Witness for C3 (amended): the returned plain 16-hex name satisfies the
pattern. -/
theorem C3_witness : pyStateIdMatch "abcdefabcdefabcd" = true :=
  (((C3_state_ids_amended envTwo "IPTS-1").1 "abcdefabcdefabcd").mp (by decide)).2

/-- C4: inside a timestamp folder, the reduction file is the exact
`reduced_<run:06d>_<timestamp>.nxs` entry when present; otherwise the first
entry matching the glob `reduced_*.nxs`; and when neither exists the folder
contributes no record at all. -/
theorem C4_reduced_file_location (env : Env)
    (ipts state_id mode runDirName : String) (run_number : Int) (tsName : String)
    (children : List FSEntry) :
    ((children.any fun e =>
        e.name == "reduced_" ++ pad6 run_number ++ "_" ++ tsName ++ ".nxs") = true →
      findReducedFile run_number tsName children =
        some ("reduced_" ++ pad6 run_number ++ "_" ++ tsName ++ ".nxs"))
    ∧ ((children.any fun e =>
        e.name == "reduced_" ++ pad6 run_number ++ "_" ++ tsName ++ ".nxs") = false →
      ∀ g gs, (children.filter fun e =>
          strStartsWith e.name "reduced_" && strEndsWith e.name ".nxs") = g :: gs →
        findReducedFile run_number tsName children = some g.name)
    ∧ ((children.any fun e =>
        e.name == "reduced_" ++ pad6 run_number ++ "_" ++ tsName ++ ".nxs") = false →
      (children.filter fun e =>
          strStartsWith e.name "reduced_" && strEndsWith e.name ".nxs") = [] →
      findReducedFile run_number tsName children = none
      ∧ tsRecord env ipts state_id mode runDirName run_number tsName children = none) := by
  refine ⟨?_, ?_, ?_⟩
  · intro h
    unfold findReducedFile
    rw [if_pos h]
  · intro h g gs hf
    unfold findReducedFile
    rw [if_neg (by simp [h]), hf]
  · intro h hf
    have h1 : findReducedFile run_number tsName children = none := by
      unfold findReducedFile
      rw [if_neg (by simp [h]), hf]
    refine ⟨h1, ?_⟩
    unfold tsRecord
    rw [h1]

/-- Witness for C4 on the glob-fallback example folder: the single
unconventionally named `reduced_custom_20250101.nxs` file is found. -/
theorem C4_witness :
    findReducedFile 7 tsEarly globChildren = some "reduced_custom_20250101.nxs" :=
  (C4_reduced_file_location envEmpty "IPTS-1" "s" "lite" "7" 7 tsEarly
    globChildren).2.1 (by decide) (.file "reduced_custom_20250101.nxs" 0 none) []
    (by rfl)

/-- Counterexample for C5 as stated: a run folder named `-3` parses with
Python's `int()` and is discovered, so a returned record carries a negative
run number. -/
theorem C5_counterexample :
    (discover_reduced_runs envNeg "IPTS-1" "s" true true).map
      (fun r => r.run_number) = [-3]
    ∧ ¬ (0 : Int) ≤ -3 := ⟨by decide, by decide⟩

/-- C5 (amended): `discover_reduced_runs` treats as run-number folders
exactly the immediate subdirectories of the state root whose name parses
with Python's `int()` (which also accepts a sign, surrounding whitespace
and digit underscores, so run numbers can be negative); every returned
record's run number is the parse of some such subdirectory name, and
subdirectories whose name does not parse — such as `"abc"` — contribute
nothing, with no error. -/
theorem C5_run_folder_parsing (env : Env) (ipts state_id : String)
    (lite latest_only : Bool) :
    ∀ r ∈ discover_reduced_runs env ipts state_id lite latest_only,
      ∃ e ∈ stateRootChildren env ipts state_id lite,
        e.isDir = true ∧ pyIntParse e.name = some r.run_number := by
  intro r hr
  rw [discover_eq] at hr
  rcases List.mem_flatMap.mp hr with ⟨k, hk, hpk⟩
  exact rawRecords_run_from_dir (mem_runGroup.mp (processGroup_mem hpk)).1

/-- Witness for C5 (amended) at the `-3` example: some state-root
subdirectory parses to the returned run number. -/
theorem C5_witness :
    (stateRootChildren envNeg "IPTS-1" "s" true).any
      (fun e => e.isDir && pyIntParse e.name == some (-3)) = true := by
  rcases C5_run_folder_parsing envNeg "IPTS-1" "s" true true recNeg (by decide)
    with ⟨e, he, hd, hp⟩
  refine List.any_eq_true.mpr ⟨e, he, ?_⟩
  rw [hd, hp]
  decide

/-- Counterexample for C6 as stated: when no file can be located the error
record echoes the requested run number instead of zeroing it, so not all
remaining numeric fields are zero. -/
theorem C6_counterexample :
    (get_run_metadata envEmpty 5 none).error ≠ none
    ∧ (get_run_metadata envEmpty 5 none).run_number ≠ 0 := ⟨by decide, by decide⟩

theorem from_file_error_or_default (env : Env) (p : List String) :
    (get_run_metadata_from_file env p).error = none
    ∨ ((get_run_metadata_from_file env p).title = .pstr ""
      ∧ (get_run_metadata_from_file env p).start_time = .pstr ""
      ∧ (get_run_metadata_from_file env p).end_time = .pstr ""
      ∧ (get_run_metadata_from_file env p).duration = 0
      ∧ (get_run_metadata_from_file env p).total_counts = 0
      ∧ (get_run_metadata_from_file env p).file_size_bytes = 0
      ∧ (get_run_metadata_from_file env p).file_path = ""
      ∧ (get_run_metadata_from_file env p).extras = []) := by
  unfold get_run_metadata_from_file
  cases hpe : pathExists env.tree p with
  | false =>
    rw [if_pos (by rfl)]
    exact Or.inr ⟨rfl, rfl, rfl, rfl, rfl, rfl, rfl, rfl⟩
  | true =>
    rw [if_neg (by simp)]
    cases hh : env.hasH5py with
    | false =>
      rw [if_pos (by rfl)]
      exact Or.inr ⟨rfl, rfl, rfl, rfl, rfl, rfl, rfl, rfl⟩
    | true =>
      rw [if_neg (by simp)]
      rcases he : entryAt env.tree p with _ | e
      · exact Or.inr ⟨rfl, rfl, rfl, rfl, rfl, rfl, rfl, rfl⟩
      · cases e with
        | dir nm cs => exact Or.inr ⟨rfl, rfl, rfl, rfl, rfl, rfl, rfl, rfl⟩
        | file nm sz c =>
          rcases c with _ | f
          · exact Or.inr ⟨rfl, rfl, rfl, rfl, rfl, rfl, rfl, rfl⟩
          · dsimp only
            rcases hd : pyFloat (read_value f "entry/duration" (.pfloat 0))
                with _ | d
            · exact Or.inr ⟨rfl, rfl, rfl, rfl, rfl, rfl, rfl, rfl⟩
            · rcases hti : pyInt (read_value f "entry/total_counts" (.pint 0))
                  with _ | tc
              · exact Or.inr ⟨rfl, rfl, rfl, rfl, rfl, rfl, rfl, rfl⟩
              · exact Or.inl rfl

/-- C6 (amended): when no raw file can be located, `get_run_metadata`
returns a record with a non-null error, the requested run number, and all
other numeric and string fields zero/empty; and in general every record it
produces either has a null error or carries all fields other than
`run_number` at their zero/empty defaults. -/
theorem C6_error_record_shape :
    (∀ (env : Env) (run : Int) (ipts : Option String),
      find_nexus_file env run ipts = none →
      (get_run_metadata env run ipts).error ≠ none
      ∧ (get_run_metadata env run ipts).run_number = run
      ∧ (get_run_metadata env run ipts).title = .pstr ""
      ∧ (get_run_metadata env run ipts).start_time = .pstr ""
      ∧ (get_run_metadata env run ipts).end_time = .pstr ""
      ∧ (get_run_metadata env run ipts).duration = 0
      ∧ (get_run_metadata env run ipts).total_counts = 0
      ∧ (get_run_metadata env run ipts).file_size_bytes = 0
      ∧ (get_run_metadata env run ipts).file_path = ""
      ∧ (get_run_metadata env run ipts).extras = [])
    ∧ ∀ (env : Env) (run : Int) (ipts : Option String),
      (get_run_metadata env run ipts).error = none
      ∨ ((get_run_metadata env run ipts).title = .pstr ""
        ∧ (get_run_metadata env run ipts).start_time = .pstr ""
        ∧ (get_run_metadata env run ipts).end_time = .pstr ""
        ∧ (get_run_metadata env run ipts).duration = 0
        ∧ (get_run_metadata env run ipts).total_counts = 0
        ∧ (get_run_metadata env run ipts).file_size_bytes = 0
        ∧ (get_run_metadata env run ipts).file_path = ""
        ∧ (get_run_metadata env run ipts).extras = []) := by
  constructor
  · intro env run ipts h
    unfold get_run_metadata
    rw [h]
    rcases ipts with _ | i
    · exact ⟨by simp, rfl, rfl, rfl, rfl, rfl, rfl, rfl, rfl, rfl⟩
    · dsimp only
      by_cases hi : (i == "") = true
      · rw [if_pos hi]
        exact ⟨by simp, rfl, rfl, rfl, rfl, rfl, rfl, rfl, rfl, rfl⟩
      · rw [if_neg hi]
        exact ⟨by simp, rfl, rfl, rfl, rfl, rfl, rfl, rfl, rfl, rfl⟩
  · intro env run ipts
    unfold get_run_metadata
    rcases hf : find_nexus_file env run ipts with _ | p
    · rcases ipts with _ | i
      · exact Or.inr ⟨rfl, rfl, rfl, rfl, rfl, rfl, rfl, rfl⟩
      · dsimp only
        by_cases hi : (i == "") = true
        · rw [if_pos hi]
          exact Or.inr ⟨rfl, rfl, rfl, rfl, rfl, rfl, rfl, rfl⟩
        · rw [if_neg hi]
          exact Or.inr ⟨rfl, rfl, rfl, rfl, rfl, rfl, rfl, rfl⟩
    · dsimp only
      exact from_file_error_or_default env p

/-- Witness for C6 (amended) on the empty world. -/
theorem C6_witness :
    (get_run_metadata envEmpty 5 none).error ≠ none
    ∧ (get_run_metadata envEmpty 5 none).run_number = 5
    ∧ (get_run_metadata envEmpty 5 none).duration = 0 := by
  have h := C6_error_record_shape.1 envEmpty 5 none (by decide)
  exact ⟨h.1, h.2.1, h.2.2.2.2.2.1⟩

/-- C7: the common defensive read contract of both dataset readers — absent
key gives the caller default; a present length-1 array is unwrapped to its
scalar, with byte strings decoded to text and numpy numerics coerced to
plain numbers; every exception along the unwrap (a raising read, a failing
decode, an empty array hitting `.item()`) yields the default instead of
propagating. -/
theorem C7_read_contract (f : HFile) (key log_name : String) (default : PyVal) :
    ((List.lookup key f = none → read_value f key default = default)
      ∧ (List.lookup key f = some .hraises → read_value f key default = default)
      ∧ (List.lookup key f = some (.harr []) → read_value f key default = default)
      ∧ (∀ s, List.lookup key f = some (.harr [.hbytes (some s)]) →
          read_value f key default = .pstr s)
      ∧ (List.lookup key f = some (.harr [.hbytes none]) →
          read_value f key default = default)
      ∧ (∀ n, List.lookup key f = some (.harr [.hint n]) →
          read_value f key default = .pint n)
      ∧ (∀ q, List.lookup key f = some (.harr [.hfloat q]) →
          read_value f key default = .pfloat q)
      ∧ (∀ n, List.lookup key f = some (.hscalInt n) →
          read_value f key default = .pint n)
      ∧ (∀ q, List.lookup key f = some (.hscalFloat q) →
          read_value f key default = .pfloat q))
    ∧ ((List.lookup ("mantid_workspace_1/logs/" ++ log_name ++ "/value") f = none →
          read_log_value f log_name default = default)
      ∧ (List.lookup ("mantid_workspace_1/logs/" ++ log_name ++ "/value") f =
            some .hraises → read_log_value f log_name default = default)
      ∧ (List.lookup ("mantid_workspace_1/logs/" ++ log_name ++ "/value") f =
            some (.harr []) → read_log_value f log_name default = default)
      ∧ (∀ s, List.lookup ("mantid_workspace_1/logs/" ++ log_name ++ "/value") f =
            some (.harr [.hbytes (some s)]) →
          read_log_value f log_name default = .pstr s)
      ∧ (List.lookup ("mantid_workspace_1/logs/" ++ log_name ++ "/value") f =
            some (.harr [.hbytes none]) →
          read_log_value f log_name default = default)
      ∧ (∀ n, List.lookup ("mantid_workspace_1/logs/" ++ log_name ++ "/value") f =
            some (.harr [.hint n]) → read_log_value f log_name default = .pint n)
      ∧ (∀ q, List.lookup ("mantid_workspace_1/logs/" ++ log_name ++ "/value") f =
            some (.harr [.hfloat q]) → read_log_value f log_name default = .pfloat q)
      ∧ (∀ n, List.lookup ("mantid_workspace_1/logs/" ++ log_name ++ "/value") f =
            some (.hscalInt n) → read_log_value f log_name default = .pint n)
      ∧ (∀ q, List.lookup ("mantid_workspace_1/logs/" ++ log_name ++ "/value") f =
            some (.hscalFloat q) → read_log_value f log_name default = .pfloat q)) := by
  refine ⟨⟨?_, ?_, ?_, ?_, ?_, ?_, ?_, ?_, ?_⟩, ?_, ?_, ?_, ?_, ?_, ?_, ?_, ?_, ?_⟩
  all_goals
    first
    | (intro h; simp only [read_value, read_log_value, h])
    | (intro x h; simp only [read_value, read_log_value, h])

/-- Witness for C7: the absent-key default and a decoded singleton byte
array on a one-entry container. -/
theorem C7_witness :
    read_value [] "entry/title" (.pstr "") = .pstr ""
    ∧ read_log_value [("mantid_workspace_1/logs/duration/value",
        .harr [.hbytes (some "x")])] "duration" (.pfloat 0) = .pstr "x" := by
  constructor
  · exact (C7_read_contract [] "entry/title" "duration" (.pstr "")).1.1 (by decide)
  · exact (C7_read_contract [("mantid_workspace_1/logs/duration/value",
      .harr [.hbytes (some "x")])] "entry/title" "duration" (.pfloat 0)).2.2.2.2.1
      "x" (by decide)

/-- C8: `count_rate_display` divides only under the `duration > 0` guard,
rendering `"N/A"` whenever the duration is not positive, and renders
`"3.000 ME/s"` for six million counts over two seconds. -/
theorem C8_count_rate (m : RunMetadata) :
    (¬ 0 < m.duration → m.count_rate_display = "N/A")
    ∧ mRate.count_rate_display = "3.000 ME/s" := by
  constructor
  · intro h
    unfold RunMetadata.count_rate_display
    rw [if_neg h]
  · have h : ((mRate.total_counts : ℚ) / mRate.duration / 1000000) = 3 := by
      norm_num [mRate]
    unfold RunMetadata.count_rate_display
    rw [if_pos (by norm_num [mRate]), h]
    decide

/-- Witness for C8 at zero duration. -/
theorem C8_witness : mZero.count_rate_display = "N/A" :=
  (C8_count_rate mZero).1 (by decide)

theorem bool_eq_false {b : Bool} (h : ¬ b = true) : b = false := by
  cases b
  · rfl
  · exact absurd rfl h

theorem lookup_map_upsert {b : List (String × DVal)} {k : String} {v : DVal}
    (h : (b.any fun p => p.1 == k) = true) :
    List.lookup k (b.map fun p => if p.1 == k then (k, v) else p) = some v := by
  induction b with
  | nil => simp at h
  | cons a b ih =>
    rcases a with ⟨k₁, v₁⟩
    simp only [List.any_cons, Bool.or_eq_true] at h
    simp only [List.map_cons]
    by_cases ha : (k₁ == k) = true
    · rw [if_pos ha]
      simp [List.lookup]
    · rw [if_neg ha]
      have hb : (b.any fun p => p.1 == k) = true := by
        rcases h with h | h
        · exact absurd h ha
        · exact h
      have hk : (k == k₁) = false := bool_eq_false fun hc =>
        ha (by rw [beq_iff_eq] at hc ⊢; exact hc.symm)
      simp only [List.lookup, hk]
      exact ih hb

theorem lookup_map_other {b : List (String × DVal)} {k k' : String} {v : DVal}
    (h : ¬ k' = k) :
    List.lookup k' (b.map fun p => if p.1 == k then (k, v) else p) =
      List.lookup k' b := by
  induction b with
  | nil => rfl
  | cons a b ih =>
    rcases a with ⟨k₁, v₁⟩
    simp only [List.map_cons]
    by_cases ha : (k₁ == k) = true
    · rw [if_pos ha]
      have h1 : (k' == k) = false := bool_eq_false fun hc => h (beq_iff_eq.mp hc)
      have h2 : (k' == k₁) = false := bool_eq_false fun hc =>
        h ((beq_iff_eq.mp hc).trans (beq_iff_eq.mp ha))
      simp only [List.lookup, h1, h2]
      exact ih
    · rw [if_neg ha]
      by_cases h2 : (k' == k₁) = true
      · simp only [List.lookup, h2]
      · simp only [List.lookup, bool_eq_false h2]
        exact ih

theorem lookup_append_self {b : List (String × DVal)} {k : String} {v : DVal}
    (h : (b.any fun p => p.1 == k) = false) :
    List.lookup k (b ++ [(k, v)]) = some v := by
  induction b with
  | nil => simp [List.lookup]
  | cons a b ih =>
    rcases a with ⟨k₁, v₁⟩
    simp only [List.any_cons, Bool.or_eq_false_iff] at h
    have hk : (k == k₁) = false := bool_eq_false fun hc => by
      rw [beq_iff_eq] at hc
      rw [hc] at h
      simp at h
    simp only [List.cons_append, List.lookup, hk]
    exact ih h.2

theorem lookup_append_other {b : List (String × DVal)} {k k' : String} {v : DVal}
    (h : ¬ k' = k) :
    List.lookup k' (b ++ [(k, v)]) = List.lookup k' b := by
  induction b with
  | nil =>
    have h1 : (k' == k) = false := bool_eq_false fun hc => h (beq_iff_eq.mp hc)
    simp [List.lookup, h1]
  | cons a b ih =>
    rcases a with ⟨k₁, v₁⟩
    by_cases h2 : (k' == k₁) = true
    · simp only [List.cons_append, List.lookup, h2]
    · simp only [List.cons_append, List.lookup, bool_eq_false h2]
      exact ih

theorem lookup_pyUpsert_self (b : List (String × DVal)) (k : String) (v : DVal) :
    List.lookup k (pyUpsert b k v) = some v := by
  unfold pyUpsert
  by_cases h : (b.any fun p => p.1 == k) = true
  · rw [if_pos h]
    exact lookup_map_upsert h
  · rw [if_neg h]
    exact lookup_append_self (Bool.eq_false_iff.mpr h)

theorem lookup_pyUpsert_other {k k' : String} (h : ¬ k' = k)
    (b : List (String × DVal)) (v : DVal) :
    List.lookup k' (pyUpsert b k v) = List.lookup k' b := by
  unfold pyUpsert
  by_cases ha : (b.any fun p => p.1 == k) = true
  · rw [if_pos ha]
    exact lookup_map_other h
  · rw [if_neg ha]
    exact lookup_append_other h

theorem lookup_merge_absent {k : String} :
    ∀ {e : List (String × DVal)}, (∀ p ∈ e, ¬ p.1 = k) →
      ∀ b, List.lookup k (pyDictMerge b e) = List.lookup k b := by
  intro e
  induction e with
  | nil => intro _ b; rfl
  | cons a e ih =>
    intro h b
    rcases a with ⟨k₂, v₂⟩
    simp only [pyDictMerge, List.foldl_cons] at ih ⊢
    rw [ih (fun p hp => h p (List.mem_cons_of_mem _ hp))]
    exact lookup_pyUpsert_other
      (fun hc => h (k₂, v₂) (List.mem_cons_self _ _) hc.symm) _ _

theorem lookup_merge {k : String} {v : DVal} :
    ∀ {e : List (String × DVal)}, (e.map Prod.fst).Nodup →
      List.lookup k e = some v →
      ∀ b, List.lookup k (pyDictMerge b e) = some v := by
  intro e
  induction e with
  | nil => intro _ hlk; simp [List.lookup] at hlk
  | cons a e ih =>
    intro hnd hlk b
    rcases a with ⟨k₁, v₁⟩
    simp only [List.map_cons, List.nodup_cons] at hnd
    have hstep : pyDictMerge b ((k₁, v₁) :: e) = pyDictMerge (pyUpsert b k₁ v₁) e := rfl
    rw [hstep]
    by_cases hk : (k == k₁) = true
    · have hkk : k = k₁ := beq_iff_eq.mp hk
      simp only [List.lookup, hk] at hlk
      rcases Option.some_inj.mp hlk with rfl
      have habs : ∀ p ∈ e, ¬ p.1 = k := by
        intro p hp hc
        exact hnd.1 (hkk ▸ hc ▸ List.mem_map_of_mem Prod.fst hp)
      rw [lookup_merge_absent habs (pyUpsert b k₁ v₁), hkk]
      exact lookup_pyUpsert_self b k₁ v₁
    · simp only [List.lookup, bool_eq_false hk] at hlk
      exact ih hnd.2 hlk (pyUpsert b k₁ v₁)


/-- C9: `to_dict` merges `extras` after the fixed entries, so an extras
binding whose key equals a fixed field name is what the serialized mapping
reports for that key, in place of the field's actual value. -/
theorem C9_to_dict_extras_override (m : RunMetadata) (k : String) (v : DVal)
    (d : List (String × DVal)) (hnd : (m.extras.map Prod.fst).Nodup)
    (hlk : List.lookup k m.extras = some v) (hd : m.to_dict = some d) :
    List.lookup k d = some v := by
  unfold RunMetadata.to_dict at hd
  rcases hs : pyFormatTimestamp m.start_time with _ | sf
  · rw [hs] at hd; cases hd
  · rw [hs] at hd
    rcases he : pyFormatTimestamp m.end_time with _ | ef
    · rw [he] at hd; cases hd
    · rw [he] at hd
      rcases Option.some_inj.mp hd with rfl
      exact lookup_merge hnd hlk _

/-- Witness for C9: the extras binding of `"error"` shadows the fixed
`error` entry of the shadowed record's serialization. -/
theorem C9_witness :
    (mShadow.to_dict).bind (fun d => List.lookup "error" d) =
      some (.dstr "boom") := by
  rcases hd : mShadow.to_dict with _ | d
  · exact absurd hd (by decide)
  · have h := C9_to_dict_extras_override mShadow "error" (.dstr "boom") d
      (by decide) (by decide) hd
    simpa using h

theorem findSome_desc_first {f : String → Option (List String)} :
    ∀ {l : List String}, l.Pairwise (fun a b => strLe b a = true) →
      (∀ p, l.findSome? f = some p →
        ∃ nm ∈ l, f nm = some p
          ∧ ∀ nm' ∈ l, strLe nm' nm = false → f nm' = none)
      ∧ (l.findSome? f = none → ∀ nm ∈ l, f nm = none) := by
  intro l
  induction l with
  | nil =>
    exact fun _ =>
      ⟨fun p h => by simp at h, fun _ nm h => absurd h (List.not_mem_nil nm)⟩
  | cons a l ih =>
    intro hp
    rcases List.pairwise_cons.mp hp with ⟨ha, hl⟩
    constructor
    · intro p h
      rcases hfa : f a with _ | q
      · rw [List.findSome?_cons, hfa] at h
        rcases (ih hl).1 p h with ⟨nm, hnm, hf, hall⟩
        refine ⟨nm, List.mem_cons_of_mem _ hnm, hf, ?_⟩
        intro nm' hnm' hlt
        rcases List.mem_cons.mp hnm' with rfl | hmem
        · exact hfa
        · exact hall nm' hmem hlt
      · rw [List.findSome?_cons, hfa] at h
        rcases Option.some_inj.mp h with rfl
        refine ⟨a, List.mem_cons_self a l, hfa, ?_⟩
        intro nm' hnm' hlt
        rcases List.mem_cons.mp hnm' with rfl | hmem
        · rw [strLe_refl] at hlt; cases hlt
        · rw [ha nm' hmem] at hlt; cases hlt
    · intro h nm hnm
      rcases hfa : f a with _ | q
      · rw [List.findSome?_cons, hfa] at h
        rcases List.mem_cons.mp hnm with rfl | hmem
        · exact hfa
        · exact (ih hl).2 h nm hmem
      · rw [List.findSome?_cons, hfa] at h
        cases h

/-- C10: with the `finddata` CLI unavailable and the named experiment probe
missing (or no experiment named), `find_nexus_file` is the reverse-lexical
scan of the `IPTS-*` folders: any hit is the per-folder native-then-lite
probe of some scanned folder such that every lexically greater scanned
folder has no file for the run, a miss means no scanned folder has one,
and `get_run_metadata` then reads its metadata from whichever folder the
scan found. -/
theorem C10_fallback_scan (env : Env) (run : Int) (ipts : Option String)
    (hfd : env.finddata = none) (hnamed : findInNamedIpts env run ipts = none) :
    find_nexus_file env run ipts = scanIptsDirs env run
    ∧ (∀ p, scanIptsDirs env run = some p →
        ∃ nm ∈ iptsScanNames env.tree,
          matchInIptsDir env.tree run nm = some p
          ∧ ∀ nm' ∈ iptsScanNames env.tree, strLe nm' nm = false →
              matchInIptsDir env.tree run nm' = none)
    ∧ (scanIptsDirs env run = none →
        ∀ nm ∈ iptsScanNames env.tree, matchInIptsDir env.tree run nm = none)
    ∧ ∀ p, find_nexus_file env run ipts = some p →
        get_run_metadata env run ipts = get_run_metadata_from_file env p := by
  have hstep : finddataStep env = none := by unfold finddataStep; rw [hfd]
  have hfind : find_nexus_file env run ipts = scanIptsDirs env run := by
    unfold find_nexus_file
    rw [hnamed, hstep]
  have hdesc : (iptsScanNames env.tree).Pairwise (fun a b => strLe b a = true) :=
    sortBy_pairwise (fun a b => strLe_total b a)
      (fun {a b c} h1 h2 => strLe_trans h2 h1) _
  have hsplit := @findSome_desc_first (matchInIptsDir env.tree run)
    (iptsScanNames env.tree) hdesc
  refine ⟨hfind, hsplit.1, hsplit.2, ?_⟩
  intro p h
  unfold get_run_metadata
  rw [h]

/-- Witness for C10 on two experiment folders: the caller names `IPTS-A`,
the scan succeeds from `IPTS-B`, and the metadata is read from there with
no error. -/
theorem C10_witness :
    find_nexus_file envCross 7 (some "IPTS-A") = scanIptsDirs envCross 7
    ∧ get_run_metadata envCross 7 (some "IPTS-A") =
        get_run_metadata_from_file envCross ["IPTS-B", "nexus", "SNAP_7.nxs.h5"]
    ∧ (get_run_metadata envCross 7 (some "IPTS-A")).error = none
    ∧ (get_run_metadata envCross 7 (some "IPTS-A")).file_path =
        "/SNS/SNAP/IPTS-B/nexus/SNAP_7.nxs.h5" := by
  have h := C10_fallback_scan envCross 7 (some "IPTS-A") rfl (by decide)
  exact ⟨h.1, h.2.2.2 _ (by decide), by decide, by decide⟩
